import Mathlib

/-!
# Verification of the langkit expression compiler core

Shallow embedding of `langkit/expressions/base.py`: the `unsugar` entry
point, the generic `construct` resolution engine, literal resolution,
variable memoization, dynamic-variable binding, the freeze discipline,
local-variable allocation and the IR rendering contract.  Python's mutable
objects are modelled by explicit state records; functions that can raise a
`DiagnosticError` (or any other exception) return `Except String`.
-/

namespace Langkit

/-- Modelled from the spec: the Type Registry (`langkit.compiled_types`) is
an external collaborator, "consumed, not owned" (spec section 6).  We embed a
small concrete universe of compiled types: the boolean and integer (long)
built-in types, the symbol type, the special `no_compiled_type` marker, AST
node types organized in a single-parent subtyping hierarchy, and array types
(which carry reference-counted ownership semantics). -/
inductive CompiledType where
  | boolType : CompiledType
  | longType : CompiledType
  | symbolType : CompiledType
  | noCompiledType : CompiledType
  | rootNodeType (name : String) : CompiledType
  | derivedNodeType (name : String) (parent : CompiledType) : CompiledType
  | arrayType (elem : CompiledType) : CompiledType
deriving DecidableEq, Repr

/-- Modelled from the spec: the registry's subtype relation
`subtypeMatches(a, b)` (source: `CompiledType.matches`, used by `construct`):
a type matches the expected type when it is equal to it or when it derives
from it through the node-type parent chain. -/
def CompiledType.tyMatches : CompiledType → CompiledType → Bool
  | t, u =>
    if t = u then true
    else
      match t with
      | .derivedNodeType _ p => p.tyMatches u
      | _ => false

/-- Modelled from the spec: canonical display name per type, "used verbatim
in diagnostic messages" (source: `type.name.camel`). -/
def CompiledType.camelName : CompiledType → String
  | .boolType => "BooleanType"
  | .longType => "LongType"
  | .symbolType => "SymbolType"
  | .noCompiledType => "NoCompiledType"
  | .rootNodeType n => n
  | .derivedNodeType n _ => n
  | .arrayType e => e.camelName ++ "Array"

/-- Modelled from the spec: whether a type is subject to reference-counted
ownership semantics (source: `CompiledType.is_refcounted`; in langkit, array
types are ref-counted while booleans, integers, symbols and bare AST node
pointers are not). -/
def CompiledType.isRefcounted : CompiledType → Bool
  | .arrayType _ => true
  | _ => false

/-- A raw Python literal value.  In Python `bool` is a subclass of `int`, so
a boolean value satisfies both `isinstance(x, bool)` and
`isinstance(x, int)`; the two constructors record which concrete class the
value has while `isIntInstance` reflects the subclass relation. -/
inductive PyVal where
  | vBool (b : Bool) : PyVal
  | vInt (n : Int) : PyVal
deriving DecidableEq, Repr

/-- `isinstance(x, bool)`: true exactly for values of concrete class `bool`. -/
def PyVal.isBoolInstance : PyVal → Bool
  | .vBool _ => true
  | .vInt _ => false

/-- `isinstance(x, int)`: true for every `int`, and for every `bool` since
Python's `bool` derives from `int`. -/
def PyVal.isIntInstance : PyVal → Bool
  | _ => true

/-- `str(x)` on a raw literal: `str(True) = "True"`, `str(7) = "7"`. -/
def PyVal.reprStr : PyVal → String
  | .vBool b => if b then "True" else "False"
  | .vInt n => toString n

/-- The resolved-expression (IR) nodes the claims touch.

* `literalExpr` — `LiteralExpr(template, expr_type)` with the default empty
  operand list, as built by `Literal.construct`;
* `symbolExpr` — `SymbolLiteral.Expr(name)`, whose `static_type` is the
  symbol built-in type;
* `variableExpr` — `VariableExpr(type, name)` (`name` is `None` only for the
  unbound-name kludge of dynamic variables);
* `castExpr` — modelled from the spec: the implicit downcast wrapper node
  (`Cast.Expr(expr, dest_type)`, defined in a repository file not under
  `src/`); per the spec it is a single conversion node around the wrapped
  expression and its type is the destination type;
* `otherExpr` — stands for any of the remaining ~20 IR node kinds, which
  only need a type here (`construct` treats the node-specific result
  abstractly). -/
inductive Resolved where
  | literalExpr (tmpl : String) (ty : CompiledType) : Resolved
  | symbolExpr (name : String) : Resolved
  | variableExpr (ty : CompiledType) (name : Option String) : Resolved
  | castExpr (inner : Resolved) (target : CompiledType) : Resolved
  | otherExpr (descr : String) (ty : CompiledType) : Resolved
deriving DecidableEq, Repr

/-- `ResolvedExpression.type`. -/
def Resolved.type : Resolved → CompiledType
  | .literalExpr _ ty => ty
  | .symbolExpr _ => .symbolType
  | .variableExpr ty _ => ty
  | .castExpr _ target => target
  | .otherExpr _ ty => ty

/-- `Literal.construct`: resolution of a raw literal.  Faithful image of

    lit_str, rtype = dispatch_on_type(type(self.literal), [
        (bool, lambda _: (str(self.literal), bool_type)),
        (int,  lambda _: (str(self.literal), long_type)),
    ], exception=DiagnosticError(...))
    return LiteralExpr(lit_str, rtype)

`dispatch_on_type` tries the table entries in order, so the `bool` row is
tested before the `int` row (the source carries a WARNING comment saying the
order is deliberate, since Python bools are ints). -/
def Literal.construct (v : PyVal) : Except String Resolved :=
  if v.isBoolInstance then .ok (.literalExpr v.reprStr .boolType)
  else if v.isIntInstance then .ok (.literalExpr v.reprStr .longType)
  else .error "Invalid abstract expression type"

/-- `SymbolLiteral.construct`: returns `SymbolLiteral.Expr(self.name)`. -/
def SymbolLiteral.construct (name : String) : Except String Resolved :=
  .ok (.symbolExpr name)

/-- An abstract (unresolved) expression, as far as the claims need its
node-specific `construct` dispatch:

* `literal` — a `Literal` node wrapping a raw Python value;
* `symbolLiteral` — a `SymbolLiteral` node wrapping a string;
* `ofConstruct r` — stands for any other abstraction-node kind whose own
  `construct()` method returns `r` (the generic `construct` entry point only
  ever calls `expr.construct()` on it, so the claims quantify over that
  result). -/
inductive AbstractExpr where
  | literal (v : PyVal) : AbstractExpr
  | symbolLiteral (s : String) : AbstractExpr
  | ofConstruct (r : Except String Resolved) : AbstractExpr

/-- Node-kind dispatch of `expr.construct()`. -/
def AbstractExpr.construct : AbstractExpr → Except String Resolved
  | .literal v => Literal.construct v
  | .symbolLiteral s => SymbolLiteral.construct s
  | .ofConstruct r => r

/-- The value `unsugar` is left with after its rewriting chain: either a
genuine `AbstractExpression`, or an arbitrary other Python object (kept by
its `repr`), which the final `check_source_language` rejects unless
`ignore_errors` is set. -/
inductive USObj where
  | abs (e : AbstractExpr) : USObj
  | raw (reprStr : String) : USObj

/-- Whether the object is an `AbstractExpression` instance. -/
def USObj.isAbs : USObj → Bool
  | .abs _ => true
  | .raw _ => false

/-- `'{}'.format(expr)` for the diagnostic of `unsugar`. -/
def USObj.formatStr : USObj → String
  | .abs _ => "<AbstractExpression>"
  | .raw s => s

/-- A Python value passed to `unsugar`: `None`, an `AbstractExpression`, a
raw `bool`/`int`/`str` literal, a `TypeRepo.Defer` (whose `.get()` result is
recorded), or any other object (invalid, kept by its `repr`). -/
inductive USInput where
  | noneVal : USInput
  | absExpr (e : AbstractExpr) : USInput
  | pyBool (b : Bool) : USInput
  | pyInt (n : Int) : USInput
  | pyStr (s : String) : USInput
  | deferRef (res : USObj) : USInput
  | invalid (reprStr : String) : USInput

/-- `unsugar(expr, ignore_errors=False)`:

* `None` is returned as-is, before any conversion or validation;
* raw bools and ints become `Literal` nodes (the `isinstance(expr,
  (bool, int))` test — a bool hits this branch as well and keeps its
  bool-ness inside the `Literal`);
* strings become `SymbolLiteral` nodes;
* a `TypeRepo.Defer` is replaced by its `.get()` result;
* then `check_source_language` requires an `AbstractExpression` unless
  `ignore_errors` is set, raising "Invalid abstract expression: ..."
  otherwise. -/
def unsugar (expr : USInput) (ignoreErrors : Bool := false) :
    Except String (Option USObj) :=
  match expr with
  | .noneVal => .ok none
  | _ =>
    let e : USObj :=
      match expr with
      | .noneVal => .raw "None"
      | .absExpr a => .abs a
      | .pyBool b => .abs (.literal (.vBool b))
      | .pyInt n => .abs (.literal (.vInt n))
      | .pyStr s => .abs (.symbolLiteral s)
      | .deferRef r => r
      | .invalid s => .raw s
    if ignoreErrors || e.isAbs then .ok (some e)
    else .error ("Invalid abstract expression: " ++ e.formatStr)

/-- The `expected_type_or_pred` parameter of `construct`: a concrete
compiled type or a predicate over the constructed type (`None` is modelled
by wrapping in `Option`). -/
inductive Expected where
  | ofType (t : CompiledType) : Expected
  | ofPred (p : CompiledType → Bool) : Expected

/-- `custom_msg.format(expected=..., expr_type=...)`: substitute the
format-like template holes. -/
def formatMsg (msg : String) (expectedName exprTypeName : String) : String :=
  ((msg.replace "{expected}" expectedName).replace "{expr_type}" exprTypeName)

/-- The generic `construct(expr, expected_type_or_pred=None, custom_msg=None,
downcast=True)` entry point of the resolution engine:

* unsugars its input (an exception from `unsugar` propagates; if `unsugar`
  returns `None` the subsequent `expr.diagnostic_context` attribute access
  on `None` raises, modelled as an error);
* calls the node's own `construct()`;
* when a concrete expected type is given, requires
  `ret.type.matches(expected_type)` (diagnostic with the default or custom
  message otherwise), and if `downcast` is set and the constructed type is
  not exactly the expected type, wraps the result in one `Cast.Expr`;
* when a predicate is given, requires it to hold for `ret.type`. -/
def construct (expr : USInput) (expected : Option Expected := none)
    (customMsg : Option String := none) (downcast : Bool := true) :
    Except String Resolved := do
  let e ← unsugar expr
  match e with
  | none =>
      .error "AttributeError: NoneType object has no diagnostic context"
  | some (.raw s) =>
      .error ("AttributeError: " ++ s ++ " has no construct method")
  | some (.abs a) =>
      let ret ← a.construct
      match expected with
      | none => .ok ret
      | some (.ofType expectedType) =>
          let msg := customMsg.getD "Expected type {expected}, got {expr_type}"
          if ret.type.tyMatches expectedType then
            if downcast = true ∧ expectedType ≠ ret.type then
              .ok (.castExpr ret expectedType)
            else
              .ok ret
          else
            .error (formatMsg msg expectedType.camelName ret.type.camelName)
      | some (.ofPred p) =>
          let msg := customMsg.getD "Evaluating predicate on {expr_type} failed"
          if p ret.type then .ok ret
          else .error (formatMsg msg "" ret.type.camelName)

/-! ## Decimal rendering of numeric disambiguators

`LocalVars.create_scopeless` builds `orig_name + names.Name(str(i))` and
`AbstractVariable.__init__` builds `'Unused_{}'.format(i)`: both render a
natural number in decimal.  We model Python's `str` on a natural number by
an explicit big-endian digit list. -/

/-- Big-endian decimal digit list of `n` (`decDigits 0 = [0]`). -/
def decDigits (n : Nat) : List Nat :=
  if _h : n < 10 then [n]
  else decDigits (n / 10) ++ [n % 10]
decreasing_by exact Nat.div_lt_self (by omega) (by omega)

/-- The number denoted by a big-endian digit list (left inverse of
`decDigits`, used to prove that distinct numbers render distinctly). -/
def decVal (ds : List Nat) : Nat :=
  ds.foldl (fun a d => a * 10 + d) 0

/-- The decimal digit characters of `n`: model of Python `str(n)` for a
natural number. -/
def decChars (n : Nat) : List Char :=
  (decDigits n).map Nat.digitChar

/-- `names.Name` renders as camel-with-underscores text; concatenating two
names joins them with an underscore.  `sufName orig i` is the rendering of
`orig_name + names.Name(str(i))`. -/
def sufName (orig : String) (i : Nat) : String :=
  String.mk (orig.data ++ '_' :: decChars i)

/-- The `i`-th candidate name tried by the `create_scopeless` collision
loop: the requested name itself for `i = 0`, then the suffixed names. -/
def candName (orig : String) (i : Nat) : String :=
  if i = 0 then orig else sufName orig i

/-! ## Scope manager: `LocalVars.create` / `LocalVars.create_scopeless` -/

/-- One local variable in a property definition (`LocalVars.LocalVar`):
its unique name and its (possibly still unknown) type. -/
structure LocalVar where
  lvName : String
  lvType : Option CompiledType
deriving DecidableEq, Repr

/-- The per-property local-variable table.  `localVars` models the
insertion-ordered `self.local_vars` dict (one entry per created variable,
keyed by name); `currentScopeVars` records the names added to the current
scope by `LocalVars.create`. -/
structure LocalVarsState where
  localVars : List (String × LocalVar)
  currentScopeVars : List String
deriving DecidableEq, Repr

/-- The `while name in self.local_vars` collision loop of
`create_scopeless`, trying `candName orig 0, candName orig 1, ...` until a
name is free.  The Python loop is unbounded; here it carries fuel, and
`pickName_total` below shows that `tbl.length + 1` steps always suffice
(pigeonhole: the candidates are pairwise distinct). -/
def pickName (tbl : List String) (orig : String) : Nat → Nat → Option String
  | 0, _ => none
  | fuel + 1, i =>
      let nm := candName orig i
      if nm ∈ tbl then pickName tbl orig fuel (i + 1) else some nm

/-- `LocalVars.create_scopeless(name, type)`: disambiguate the requested
name against the names of *all* local variables already created for the
property (the whole `self.local_vars` dict, not just one scope), then
register the new variable in the table without assigning it a scope. -/
def LocalVars.createScopeless (s : LocalVarsState) (name : String)
    (ty : Option CompiledType) : Option (LocalVar × LocalVarsState) :=
  match pickName (s.localVars.map (·.1)) name (s.localVars.length + 1) 0 with
  | none => none
  | some nm =>
      let v : LocalVar := ⟨nm, ty⟩
      some (v, { s with localVars := s.localVars ++ [(nm, v)] })

/-- `LocalVars.create(name, type)`: `create_scopeless` followed by
`PropertyDef.get_scope().add(result)`. -/
def LocalVars.create (s : LocalVarsState) (name : String)
    (ty : Option CompiledType) : Option (LocalVar × LocalVarsState) :=
  (LocalVars.createScopeless s name ty).map fun vs =>
    (vs.1, { vs.2 with currentScopeVars := vs.2.currentScopeVars ++ [vs.1.lvName] })

/-! ## `AbstractVariable.construct` memoization -/

/-- A `VariableExpr` IR instance as a heap object: `objId` models Python
object identity (`is`), so two structurally equal instances with different
`objId`s are distinct objects. -/
structure VariableExprObj where
  objId : Nat
  veType : CompiledType
  veName : Option String
deriving DecidableEq, Repr

/-- The mutable state of one `AbstractVariable`: its current name (`None`
only for the dynamic-variable kludge), its resolved type, the
`construct_cache` dict keyed by `(name, type)`, and the allocator for fresh
object identities. -/
structure AVState where
  avName : Option String
  avType : CompiledType
  constructCache : List ((Option String × CompiledType) × VariableExprObj)
  nextObjId : Nat
deriving DecidableEq, Repr

/-- Lookup in the `construct_cache` dict. -/
def cacheLookup
    (cache : List ((Option String × CompiledType) × VariableExprObj))
    (key : Option String × CompiledType) : Option VariableExprObj :=
  match cache.find? (fun kv => kv.1 == key) with
  | some kv => some kv.2
  | none => none

/-- `AbstractVariable.construct`: build `key = (self._name, self.type)`,
return the cached `VariableExpr` when present, otherwise allocate a fresh
`VariableExpr(typ, self._name, self)` and record it in the cache. -/
def AbstractVariable.constructVar (s : AVState) : VariableExprObj × AVState :=
  let key := (s.avName, s.avType)
  match cacheLookup s.constructCache key with
  | some e => (e, s)
  | none =>
      let e : VariableExprObj := ⟨s.nextObjId, s.avType, s.avName⟩
      (e, { s with constructCache := (key, e) :: s.constructCache,
                   nextObjId := s.nextObjId + 1 })

/-! ## Dynamic variables -/

/-- The slice of a `PropertyDef` that `DynamicVariable.is_accepted_in`
consults: the identities (`arg.var is self`) of the dynamic variables among
the property's arguments. -/
structure PropertyInfo where
  acceptedDynvarIds : List Nat
deriving DecidableEq, Repr

/-- The state of one `DynamicVariable`: its object identity, its
`argument_name` (the lower-case name used in diagnostics), and the
inherited `AbstractVariable` state — `base.avName` is `self._name`, which
is `None` exactly when no `bind`/`bind_default` binding is in effect. -/
structure DynVarState where
  dvId : Nat
  argumentName : String
  base : AVState
deriving DecidableEq, Repr

/-- `DynamicVariable.is_accepted_in(prop)`: `False` when `prop` is `None`,
otherwise whether some argument of `prop` is this very variable. -/
def DynamicVariable.isAcceptedIn (dvId : Nat) (prop : Option PropertyInfo) :
    Bool :=
  match prop with
  | none => false
  | some p => p.acceptedDynvarIds.contains dvId

/-- `DynamicVariable.is_bound`: the current property accepts this implicit
argument, or a binding is currently in effect (`self._name is not None`). -/
def DynamicVariable.isBound (d : DynVarState)
    (curProp : Option PropertyInfo) : Bool :=
  DynamicVariable.isAcceptedIn d.dvId curProp || d.base.avName.isSome

/-- `DynamicVariable.construct`: `check_source_language(self.is_bound, ...)`
then delegate to `AbstractVariable.construct`. -/
def DynamicVariable.constructDyn (d : DynVarState)
    (curProp : Option PropertyInfo) :
    Except String (VariableExprObj × DynVarState) :=
  if DynamicVariable.isBound d curProp then
    let r := AbstractVariable.constructVar d.base
    .ok (r.1, { d with base := r.2 })
  else
    .error (d.argumentName ++ " is not bound in this context: please use the"
            ++ " .bind construct to bind it first.")

/-! ## Freezing (`Frozable`) -/

/-- An abstraction node as the freeze machinery sees it: its `_frozen` flag
and the `Frozable` values reachable from its `__dict__` (its child
abstraction nodes). -/
inductive FNode where
  | node (frozen : Bool) (children : List FNode) : FNode

/-- The `_frozen` flag (`Frozable.frozen`, defaulting to `False`). -/
def FNode.frozenFlag : FNode → Bool
  | .node f _ => f

mutual

/-- `Frozable.trigger_freeze(value=True)`: return immediately when already
frozen (the DAG guard), otherwise set `_frozen` and recursively freeze every
`Frozable` attribute. -/
def FNode.triggerFreeze : FNode → FNode
  | .node f cs => if f then .node f cs else .node true (FNode.triggerFreezeList cs)

/-- Freezing of the `Frozable` values found in `self.__dict__`. -/
def FNode.triggerFreezeList : List FNode → List FNode
  | [] => []
  | c :: cs => FNode.triggerFreeze c :: FNode.triggerFreezeList cs

end

/-- The operator-sugar methods of `AbstractExpression` that are wrapped in
`@Frozable.protect`. -/
inductive SugarOp where
  | opOr : SugarOp
  | opAnd : SugarOp
  | opLt : SugarOp
  | opLe : SugarOp
  | opSub : SugarOp
  | opAdd : SugarOp
  | opGt : SugarOp
  | opGe : SugarOp
  | opEq : SugarOp
deriving DecidableEq, Repr

/-- `func.__name__` for each protected operator method. -/
def SugarOp.methodName : SugarOp → String
  | .opOr => "__or__"
  | .opAnd => "__and__"
  | .opLt => "__lt__"
  | .opLe => "__le__"
  | .opSub => "__sub__"
  | .opAdd => "__add__"
  | .opGt => "__gt__"
  | .opGe => "__ge__"
  | .opEq => "__eq__"

/-- A protected binary operator-sugar invocation (`__or__`, `__and__`,
`__lt__`, ..., `__eq__`): the `Frozable.protect` wrapper raises
`' Illegal method call: <name>'` when the receiver is frozen, and otherwise
the wrapped method builds a fresh abstraction node over the two operands
(`BinaryBooleanOperator` / `OrderingTest` / `Arithmetic` / `Eq` — only the
frozen-flag structure of the result matters here). -/
def Frozable.applySugar (t : FNode) (op : SugarOp) (other : FNode) :
    Except String FNode :=
  if t.frozenFlag then .error (" Illegal method call: " ++ op.methodName)
  else .ok (.node false [t, other])

/-- A protected dynamic field access (`__getattr__`, wrapped in
`Frozable.protect`): raises `'Illegal field access: <attr>'` when the
receiver is frozen, and otherwise yields a fresh abstraction node (a
registered builder's result or a generic `FieldAccess` over the receiver). -/
def Frozable.getattrSugar (t : FNode) (attr : String) : Except String FNode :=
  if t.frozenFlag then .error ("Illegal field access: " ++ attr)
  else .ok (.node false [t])

/-! ## IR node construction and the rendering contract -/

/-- The state of one `ResolvedExpression` instance that the construction
and rendering contract reads: its type, whether it owns a result slot
(`self._result_var`), the `skippable_refcount` flag, the render-once guard
`_render_pre_called`, and whether it is a bare `VariableExpr` (exempt from
the render-once guard). -/
structure ResolvedExprState where
  resType : CompiledType
  hasResultVar : Bool
  skippableRefcount : Bool
  renderPreCalled : Bool
  isVariableExpr : Bool
deriving DecidableEq, Repr

/-- `ResolvedExpression.__init__(result_var_name, skippable_refcount,
abstract_expr)`: create the result variable exactly when a name is given,
record the `skippable_refcount` flag, clear the render guard.  It performs
no check relating ref-counted types to result slots: it is total. -/
def ResolvedExpression.initExpr (ty : CompiledType)
    (resultVarName : Option String) (skippableRefcount : Bool := false)
    (isVariableExpr : Bool := false) : ResolvedExprState :=
  { resType := ty
    hasResultVar := resultVarName.isSome
    skippableRefcount := skippableRefcount
    renderPreCalled := false
    isVariableExpr := isVariableExpr }

/-- `ResolvedExpression.render_pre`: assert the render-once guard, then
assert `skippable_refcount or type is no_compiled_type or not
type.is_refcounted or result_var` — the ref-counted/result-slot invariant is
enforced here, when the node is first rendered.  On success the guard is set
(except for `VariableExpr`, which stays render-idempotent). -/
def ResolvedExpression.renderPre (e : ResolvedExprState) :
    Except String ResolvedExprState :=
  if e.renderPreCalled then
    .error "render_pre can be called only once"
  else if e.skippableRefcount || e.resType == .noCompiledType
       || !e.resType.isRefcounted || e.hasResultVar then
    .ok { e with renderPreCalled := !e.isVariableExpr }
  else
    .error ("ResolvedExpression instances that return ref-counted values"
            ++ " must store their result in a local variable")

/-! ## `AbstractVariable.__init__`: the `_` convention -/

/-- Modelled from the spec: `names.Name.lower`, the lower-case rendering of
a name (the `names` module is an external collaborator of this core). -/
def strLower (s : String) : String :=
  String.mk (s.data.map Char.toLower)

/-- The class-level `unused_count = count(1)` iterator shared by all
`AbstractVariable` instances: `nextVal` is the value the next `next()` call
yields (initially 1). -/
structure UnusedCounter where
  nextVal : Nat
deriving DecidableEq, Repr

/-- The starting state of `count(1)`. -/
def initialUnusedCounter : UnusedCounter := ⟨1⟩

/-- `'Unused_{}'.format(i)`. -/
def unusedName (i : Nat) : String :=
  String.mk ("Unused".data ++ '_' :: decChars i)

/-- The attributes of a freshly initialized `AbstractVariable` that the
unused-binding analysis consults: `_name`, `source_name` and the explicit
`_ignored` flag (always `False` at init time). -/
structure AVInitResult where
  initName : Option String
  sourceName : Option String
  ignoredFlag : Bool
deriving DecidableEq, Repr

/-- The naming part of `AbstractVariable.__init__`: when a name is given
and its lower-case rendering is `'_'`, draw `i` from the shared counter and
rename the variable to `'Unused_<i>'`; otherwise keep the name.
`source_name` is stored as given and `_ignored` starts `False`. -/
def AbstractVariable.initVar (name : Option String)
    (sourceName : Option String) (c : UnusedCounter) :
    AVInitResult × UnusedCounter :=
  match name with
  | some nm =>
      if strLower nm = "_" then
        ({ initName := some (unusedName c.nextVal)
           sourceName := sourceName
           ignoredFlag := false }, ⟨c.nextVal + 1⟩)
      else
        ({ initName := some nm, sourceName := sourceName,
           ignoredFlag := false }, c)
  | none => ({ initName := none, sourceName := sourceName,
               ignoredFlag := false }, c)

/-- `AbstractVariable.ignored`: the explicit `_ignored` flag, or the source
name being `names.Name.from_lower('_')`. -/
def AbstractVariable.ignoredPred (v : AVInitResult) : Bool :=
  v.ignoredFlag || v.sourceName == some "_"

/-- One entry of the `all_vars` usage map of
`PropertyDef.warn_on_unused_bindings`: a `VariableExpr` (its own `_ignored`
flag and its originating `AbstractVariable`, if any) together with the
is-it-referenced mark computed by `mark_vars`. -/
structure VarExprUse where
  veIgnoredFlag : Bool
  veAbstractVar : Option AVInitResult
  isUsed : Bool
deriving DecidableEq, Repr

/-- `VariableExpr.ignored`: the expression's own `_ignored` flag or the
`ignored` predicate of its abstract variable. -/
def VariableExpr.ignoredOf (v : VarExprUse) : Bool :=
  v.veIgnoredFlag ||
    (match v.veAbstractVar with
     | some av => AbstractVariable.ignoredPred av
     | none => false)

/-- The `unused_vars` selection of `PropertyDef.warn_on_unused_bindings`:
bindings that are not used and not ignored (the subsequent sort by name and
message formatting do not change membership). -/
def PropertyDef.unusedVarsFilter (allVars : List VarExprUse) :
    List VarExprUse :=
  allVars.filter (fun bu => !bu.isUsed && !(VariableExpr.ignoredOf bu))

/-! ## Context managers over process-wide shared state

Python's `@contextmanager` runs the code after `yield` only when the
managed block exits normally; when the block raises, the exception is
thrown into the generator at the `yield` point and, absent a
`try`/`finally`, the post-`yield` code never runs.  A managed block is a
function from the shared state to an outcome (`Except`) and a final state;
each context manager below is the faithful image of its generator body. -/

/-- The process-wide shared state the three binding context managers
mutate: the `PropertyDef.__current_properties__` stack, `Self._type`, and —
for one distinguished dynamic variable — its `_name` and the current
property's `dynvar_binding_stack`. -/
structure BindState where
  currentProperties : List (Option Nat)
  selfType : Option CompiledType
  dynName : Option String
  dynvarBindingStack : List Nat
deriving DecidableEq, Repr

/-- `PropertyDef.bind`: push `self` on `__current_properties__`, `yield`,
pop.  There is no `try`/`finally`: when the block raises, the pop is
skipped and the stack keeps the pushed entry. -/
def PropertyDef.bindCM {α : Type} (p : Nat)
    (body : BindState → Except String α × BindState) (s : BindState) :
    Except String α × BindState :=
  let s1 := { s with currentProperties := s.currentProperties ++ [some p] }
  match body s1 with
  | (.ok a, s2) =>
      (.ok a, { s2 with currentProperties := s2.currentProperties.dropLast })
  | (.error e, s2) => (.error e, s2)

/-- `SelfVariable.bind_type`: save `self._type`, set it to the given type,
`yield`, restore.  No `try`/`finally`: the restore is skipped when the
block raises. -/
def SelfVariable.bindTypeCM {α : Type} (ty : CompiledType)
    (body : BindState → Except String α × BindState) (s : BindState) :
    Except String α × BindState :=
  let old := s.selfType
  let s1 := { s with selfType := some ty }
  match body s1 with
  | (.ok a, s2) => (.ok a, { s2 with selfType := old })
  | (.error e, s2) => (.error e, s2)

/-- `DynamicVariable._bind(name)`: save `self._name`, set it to the new
name, append `self` to the current property's `dynvar_binding_stack`,
`yield`, then restore the name and `assert stack.pop() is self`.  No
`try`/`finally`: when the block raises, neither the restore nor the pop
runs. -/
def DynamicVariable.bindVarCM {α : Type} (dvId : Nat)
    (newName : Option String)
    (body : BindState → Except String α × BindState) (s : BindState) :
    Except String α × BindState :=
  let saved := s.dynName
  let s1 := { s with dynName := newName,
                     dynvarBindingStack := s.dynvarBindingStack ++ [dvId] }
  match body s1 with
  | (.ok a, s2) =>
      let s3 := { s2 with dynName := saved,
                          dynvarBindingStack := s2.dynvarBindingStack.dropLast }
      if s2.dynvarBindingStack.getLast? = some dvId then (.ok a, s3)
      else (.error "AssertionError", s3)
  | (.error e, s2) => (.error e, s2)

/-! ## Helper lemmas: decimal rendering is injective -/

/-- Appending one digit multiplies the denoted value by ten. -/
theorem decVal_append (ds : List Nat) (d : Nat) :
    decVal (ds ++ [d]) = decVal ds * 10 + d := by
  unfold decVal
  rw [List.foldl_append]
  rfl

/-- `decVal` recomputes the number whose digits `decDigits` produced. -/
theorem decVal_decDigits (n : Nat) : decVal (decDigits n) = n := by
  induction n using Nat.strong_induction_on with
  | _ n ih =>
    rw [decDigits]
    by_cases h : n < 10
    · simp only [h, dite_true]
      simp [decVal]
    · simp only [h, dite_false]
      rw [decVal_append, ih (n / 10) (Nat.div_lt_self (by omega) (by omega))]
      omega

/-- `decDigits` is injective. -/
theorem decDigits_inj {m n : Nat} (h : decDigits m = decDigits n) : m = n := by
  have := decVal_decDigits m
  rw [h, decVal_decDigits] at this
  omega

/-- Every digit `decDigits` produces is below ten. -/
theorem decDigits_lt_ten (n : Nat) : ∀ d ∈ decDigits n, d < 10 := by
  induction n using Nat.strong_induction_on with
  | _ n ih =>
    rw [decDigits]
    by_cases h : n < 10
    · simp only [h, dite_true]
      intro d hd
      simp only [List.mem_singleton] at hd
      omega
    · simp only [h, dite_false]
      intro d hd
      rcases List.mem_append.1 hd with h1 | h1
      · exact ih (n / 10) (Nat.div_lt_self (by omega) (by omega)) d h1
      · simp only [List.mem_singleton] at h1
        omega

/-- `decDigits` never returns the empty list. -/
theorem decDigits_ne_nil (n : Nat) : decDigits n ≠ [] := by
  rw [decDigits]
  by_cases h : n < 10
  · simp [h]
  · simp [h]

/-- `Nat.digitChar` is injective on digits. -/
theorem digitChar_inj_lt {a b : Nat} (ha : a < 10) (hb : b < 10)
    (h : Nat.digitChar a = Nat.digitChar b) : a = b := by
  have key : ∀ x y : Fin 10, Nat.digitChar x.val = Nat.digitChar y.val →
      x = y := by decide
  have := key ⟨a, ha⟩ ⟨b, hb⟩ h
  exact congrArg Fin.val this

/-- Mapping `Nat.digitChar` over digit lists is injective. -/
theorem map_digitChar_inj : ∀ xs ys : List Nat, (∀ d ∈ xs, d < 10) →
    (∀ d ∈ ys, d < 10) →
    xs.map Nat.digitChar = ys.map Nat.digitChar → xs = ys := by
  intro xs
  induction xs with
  | nil =>
    intro ys _ _ h
    cases ys with
    | nil => rfl
    | cons y ys => simp at h
  | cons x xs ih =>
    intro ys hxs hys h
    cases ys with
    | nil => simp at h
    | cons y ys =>
      simp only [List.map_cons, List.cons.injEq] at h
      have hx : x = y := digitChar_inj_lt (hxs x (by simp)) (hys y (by simp)) h.1
      have ht : xs = ys :=
        ih ys (fun d hd => hxs d (by simp [hd])) (fun d hd => hys d (by simp [hd])) h.2
      rw [hx, ht]

/-- `decChars` (the model of `str` on naturals) is injective. -/
theorem decChars_inj {m n : Nat} (h : decChars m = decChars n) : m = n := by
  unfold decChars at h
  exact decDigits_inj
    (map_digitChar_inj _ _ (decDigits_lt_ten m) (decDigits_lt_ten n) h)

/-- `sufName` is injective in its numeric suffix. -/
theorem sufName_inj {orig : String} {i j : Nat}
    (h : sufName orig i = sufName orig j) : i = j := by
  unfold sufName at h
  have hdata := congrArg String.data h
  simp only [String.data] at hdata
  have := List.append_cancel_left hdata
  simp only [List.cons.injEq, true_and] at this
  exact decChars_inj this

/-- A suffixed name is strictly longer than the original, hence distinct
from it. -/
theorem sufName_ne_orig (orig : String) (i : Nat) : sufName orig i ≠ orig := by
  intro h
  have hlen := congrArg (fun s : String => s.data.length) h
  simp only [sufName, String.data] at hlen
  simp only [List.length_append, List.length_cons] at hlen
  omega

/-- The candidate names tried by the collision loop are pairwise
distinct. -/
theorem candName_inj {orig : String} {i j : Nat}
    (h : candName orig i = candName orig j) : i = j := by
  unfold candName at h
  by_cases hi : i = 0 <;> by_cases hj : j = 0
  · omega
  · rw [if_pos hi, if_neg hj] at h
    exact absurd h.symm (sufName_ne_orig orig j)
  · rw [if_neg hi, if_pos hj] at h
    exact absurd h (sufName_ne_orig orig i)
  · rw [if_neg hi, if_neg hj] at h
    exact sufName_inj h

/-- `unusedName` renders distinct counters as distinct names. -/
theorem unusedName_inj {i j : Nat} (h : unusedName i = unusedName j) :
    i = j := by
  unfold unusedName at h
  have hdata := congrArg String.data h
  simp only [String.data] at hdata
  have := List.append_cancel_left hdata
  simp only [List.cons.injEq, true_and] at this
  exact decChars_inj this

/-! ## Helper lemmas: freezing and caches -/

/-- A node `trigger_freeze` returns always carries a set `_frozen` flag. -/
theorem triggerFreeze_frozenFlag (t : FNode) :
    (FNode.triggerFreeze t).frozenFlag = true := by
  cases t with
  | node f cs =>
    cases f <;> simp [FNode.triggerFreeze, FNode.frozenFlag]

/-- `trigger_freeze` returns immediately on an already-frozen node. -/
theorem triggerFreeze_of_frozen (t : FNode) (h : t.frozenFlag = true) :
    FNode.triggerFreeze t = t := by
  cases t with
  | node f cs =>
    simp only [FNode.frozenFlag] at h
    subst h
    simp [FNode.triggerFreeze]

/-- The entry just inserted into the `construct_cache` is found by the next
lookup with the same key. -/
theorem cacheLookup_cons_self
    (c : List ((Option String × CompiledType) × VariableExprObj))
    (key : Option String × CompiledType) (e : VariableExprObj) :
    cacheLookup ((key, e) :: c) key = some e := by
  simp [cacheLookup]

/-! ## Claim theorems -/

/-- C9: `unsugar(None)` returns `None` for both values of the
`ignore_errors` flag: the `None` input is passed through without being
wrapped into a literal node and without raising the "Invalid abstract
expression" diagnostic that other non-expression values trigger. -/
theorem unsugar_none_passthrough :
    ∀ ignoreErrors : Bool, unsugar .noneVal ignoreErrors = .ok none := by
  intro ignoreErrors
  rfl

/-- C5: constructing a raw literal yields an IR literal node whose type is
exactly the boolean built-in type for booleans and exactly the integer
built-in type for integers; because the dispatch table tests `bool` before
`int`, boolean values (which are `int`s in Python) are never classified as
integer literals. -/
theorem construct_literal_builtin_types :
    (∀ b : Bool, construct (.pyBool b) =
      .ok (.literalExpr (PyVal.reprStr (.vBool b)) .boolType)) ∧
    (∀ n : Int, construct (.pyInt n) =
      .ok (.literalExpr (PyVal.reprStr (.vInt n)) .longType)) := by
  constructor
  · intro b
    rfl
  · intro n
    rfl

/-- C7: freezing an abstraction tree twice leaves exactly the state one
freeze leaves (idempotence), and on a frozen node every operator-sugar
invocation and every dynamic field access raises the illegal-access error —
deterministically, since the outcome depends only on the frozen flag. -/
theorem freeze_idempotent_and_frozen_access_fails (t : FNode) :
    FNode.triggerFreeze (FNode.triggerFreeze t) = FNode.triggerFreeze t ∧
    (∀ op other, Frozable.applySugar (FNode.triggerFreeze t) op other =
      .error (" Illegal method call: " ++ op.methodName)) ∧
    (∀ attr, Frozable.getattrSugar (FNode.triggerFreeze t) attr =
      .error ("Illegal field access: " ++ attr)) := by
  refine ⟨triggerFreeze_of_frozen _ (triggerFreeze_frozenFlag t), ?_, ?_⟩
  · intro op other
    simp [Frozable.applySugar, triggerFreeze_frozenFlag t]
  · intro attr
    simp [Frozable.getattrSugar, triggerFreeze_frozenFlag t]

/-- C4: `AbstractVariable.construct` is memoized by the `(name, type)` key:
a later call made while the variable still has the same name and resolved
type, and while the cache entry the first call ensured is still in place
(no operation ever removes cache entries), returns the identical
`VariableExpr` instance — the same object, not merely a structurally equal
one. -/
theorem abstractVariable_construct_memoized (s s' : AVState)
    (hn : s'.avName = s.avName) (ht : s'.avType = s.avType)
    (hc : cacheLookup s'.constructCache (s.avName, s.avType) =
      cacheLookup (AbstractVariable.constructVar s).2.constructCache
        (s.avName, s.avType)) :
    (AbstractVariable.constructVar s').1 =
      (AbstractVariable.constructVar s).1 := by
  rcases hcase : cacheLookup s.constructCache (s.avName, s.avType) with _ | e
  · have h2 : cacheLookup (AbstractVariable.constructVar s).2.constructCache
        (s.avName, s.avType) = some ⟨s.nextObjId, s.avType, s.avName⟩ := by
      simp [AbstractVariable.constructVar, hcase, cacheLookup_cons_self]
    have h1 : (AbstractVariable.constructVar s).1 =
        ⟨s.nextObjId, s.avType, s.avName⟩ := by
      simp [AbstractVariable.constructVar, hcase]
    rw [h2] at hc
    rw [h1]
    simp [AbstractVariable.constructVar, hn, ht, hc]
  · have h2 : AbstractVariable.constructVar s = (e, s) := by
      simp [AbstractVariable.constructVar, hcase]
    rw [h2] at hc
    simp only at hc
    rw [hcase] at hc
    rw [h2]
    simp [AbstractVariable.constructVar, hn, ht, hc]

/-- C4 witness: two immediately consecutive `construct` calls on a concrete
variable state return the identical instance. -/
theorem abstractVariable_construct_memoized_witness :
    (AbstractVariable.constructVar
      (AbstractVariable.constructVar ⟨some "X", .boolType, [], 0⟩).2).1 =
    (AbstractVariable.constructVar ⟨some "X", .boolType, [], 0⟩).1 :=
  abstractVariable_construct_memoized _ _ rfl rfl rfl

/-- C6: constructing a reference to a dynamic variable fails — with a
diagnostic naming the variable ("... is not bound in this context ...") —
exactly when the variable is unbound, i.e. the currently bound property
does not accept it as an implicit argument and no enclosing bind construct
has set its name; when it is bound, construction succeeds and yields the
variable's `VariableExpr` node. -/
theorem dynamicVariable_construct_bound_iff (d : DynVarState)
    (p : Option PropertyInfo) :
    (DynamicVariable.isBound d p = false ↔
      (DynamicVariable.isAcceptedIn d.dvId p = false ∧
        d.base.avName = none)) ∧
    (DynamicVariable.constructDyn d p =
        .error (d.argumentName ++ " is not bound in this context: please use the"
                ++ " .bind construct to bind it first.") ↔
      DynamicVariable.isBound d p = false) ∧
    (DynamicVariable.isBound d p = true →
      DynamicVariable.constructDyn d p =
        .ok ((AbstractVariable.constructVar d.base).1,
             { d with base := (AbstractVariable.constructVar d.base).2 })) := by
  refine ⟨?_, ?_, ?_⟩
  · unfold DynamicVariable.isBound
    cases hnm : d.base.avName <;>
      simp [Option.isSome]
  · by_cases hb : DynamicVariable.isBound d p = true
    · simp [DynamicVariable.constructDyn, hb]
    · simp only [Bool.not_eq_true] at hb
      simp [DynamicVariable.constructDyn, hb]
  · intro hb
    simp [DynamicVariable.constructDyn, hb]

/-- C6 witness: a concrete unbound dynamic variable fails with the naming
diagnostic, and the same variable under an enclosing binding succeeds. -/
theorem dynamicVariable_construct_bound_iff_witness :
    DynamicVariable.constructDyn ⟨4, "env", ⟨none, .boolType, [], 0⟩⟩ none =
      .error ("env is not bound in this context: please use the"
              ++ " .bind construct to bind it first.") ∧
    DynamicVariable.constructDyn ⟨4, "env", ⟨some "Env", .boolType, [], 0⟩⟩
        none =
      .ok (⟨0, .boolType, some "Env"⟩,
           ⟨4, "env", ⟨some "Env", .boolType,
             [((some "Env", .boolType), ⟨0, .boolType, some "Env"⟩)], 1⟩⟩) := by
  constructor
  · exact (dynamicVariable_construct_bound_iff
      ⟨4, "env", ⟨none, .boolType, [], 0⟩⟩ none).2.1.2 (by decide)
  · have h := (dynamicVariable_construct_bound_iff
      ⟨4, "env", ⟨some "Env", .boolType, [], 0⟩⟩ none).2.2 (by decide)
    rw [h]
    rfl

/-- C3 counterexample: a `ResolvedExpression` whose type is
reference-counted, that is not marked skippable and owns no result slot is
constructed without any error — `__init__` is total and performs no such
check — and the missing-result-slot defect is only reported later, when
`render_pre` runs.  This refutes "checked when the IR node is constructed,
not at a later phase such as rendering". -/
theorem refcount_check_not_at_construction :
    ResolvedExpression.initExpr (.arrayType .boolType) none =
      { resType := .arrayType .boolType, hasResultVar := false,
        skippableRefcount := false, renderPreCalled := false,
        isVariableExpr := false } ∧
    ResolvedExpression.renderPre
        (ResolvedExpression.initExpr (.arrayType .boolType) none) =
      .error ("ResolvedExpression instances that return ref-counted values"
              ++ " must store their result in a local variable") := by
  constructor <;> rfl

/-- C3 (amended): every IR node whose type is reference-counted and that is
not marked skippable must own a result slot — but the requirement is
enforced when the node is first rendered (`render_pre`'s assertion), not at
construction time: any such node that lacks a result slot and has not been
rendered yet fails its first `render_pre`. -/
theorem renderPre_requires_result_slot_for_refcounted (e : ResolvedExprState)
    (hguard : e.renderPreCalled = false)
    (hrc : e.resType.isRefcounted = true)
    (hsk : e.skippableRefcount = false)
    (hrv : e.hasResultVar = false) :
    ResolvedExpression.renderPre e =
      .error ("ResolvedExpression instances that return ref-counted values"
              ++ " must store their result in a local variable") := by
  have hne : (e.resType == CompiledType.noCompiledType) = false := by
    rw [beq_eq_false_iff_ne]
    intro hcontra
    rw [hcontra] at hrc
    simp [CompiledType.isRefcounted] at hrc
  simp [ResolvedExpression.renderPre, hguard, hrc, hsk, hrv, hne]

/-- C3 witness: the amended theorem applied to a concrete unrendered
ref-counted node without a result slot. -/
theorem renderPre_requires_result_slot_witness :
    ResolvedExpression.renderPre
        { resType := .arrayType .longType, hasResultVar := false,
          skippableRefcount := false, renderPreCalled := false,
          isVariableExpr := false } =
      .error ("ResolvedExpression instances that return ref-counted values"
              ++ " must store their result in a local variable") :=
  renderPre_requires_result_slot_for_refcounted _ rfl rfl rfl rfl

/-- C2 counterexample: when a diagnostic error propagates out of the
managed block, none of the three binding context managers restores the
shared state — the pushed current-property entry, the rebound receiver
type and the dynamic variable's binding all persist after the exceptional
exit, because the post-`yield` restoration code is not protected by
`try`/`finally`. -/
theorem bind_context_managers_no_restore_on_error :
    (PropertyDef.bindCM (α := Unit) 7 (fun s => (.error "diagnostic", s))
        ⟨[], none, none, []⟩).2 ≠ ⟨[], none, none, []⟩ ∧
    (SelfVariable.bindTypeCM (α := Unit) .boolType
        (fun s => (.error "diagnostic", s)) ⟨[], none, none, []⟩).2 ≠
      ⟨[], none, none, []⟩ ∧
    (DynamicVariable.bindVarCM (α := Unit) 5 (some "v")
        (fun s => (.error "diagnostic", s)) ⟨[], none, none, []⟩).2 ≠
      ⟨[], none, none, []⟩ := by
  refine ⟨?_, ?_, ?_⟩ <;> decide

/-- C2 (amended): the three binding context managers (`PropertyDef.bind`,
`SelfVariable.bind_type`, `DynamicVariable._bind`) restore the previous
value of the shared state they mutate on *normal* exit only — popping the
entry they pushed, restoring the saved receiver type and the saved dynamic
variable name; when an exception propagates out of the managed block the
restoration code after `yield` is skipped and the mutation persists exactly
as the block left it. -/
theorem bind_context_managers_exit_paths {α : Type} (p : Nat)
    (ty : CompiledType) (dvId : Nat) (nm : Option String)
    (body : BindState → Except String α × BindState) (s : BindState) :
    (∀ a s2,
      body { s with currentProperties := s.currentProperties ++ [some p] } =
        (.ok a, s2) →
      PropertyDef.bindCM p body s =
        (.ok a, { s2 with
                    currentProperties := s2.currentProperties.dropLast })) ∧
    (∀ a s2, body { s with selfType := some ty } = (.ok a, s2) →
      SelfVariable.bindTypeCM ty body s =
        (.ok a, { s2 with selfType := s.selfType })) ∧
    (∀ a s2,
      body { s with dynName := nm,
                    dynvarBindingStack := s.dynvarBindingStack ++ [dvId] } =
        (.ok a, s2) →
      s2.dynvarBindingStack.getLast? = some dvId →
      DynamicVariable.bindVarCM dvId nm body s =
        (.ok a, { s2 with
                    dynName := s.dynName,
                    dynvarBindingStack := s2.dynvarBindingStack.dropLast })) ∧
    (∀ e s2,
      body { s with currentProperties := s.currentProperties ++ [some p] } =
        (.error e, s2) →
      PropertyDef.bindCM p body s = (.error e, s2)) ∧
    (∀ e s2, body { s with selfType := some ty } = (.error e, s2) →
      SelfVariable.bindTypeCM ty body s = (.error e, s2)) ∧
    (∀ e s2,
      body { s with dynName := nm,
                    dynvarBindingStack := s.dynvarBindingStack ++ [dvId] } =
        (.error e, s2) →
      DynamicVariable.bindVarCM dvId nm body s = (.error e, s2)) := by
  refine ⟨?_, ?_, ?_, ?_, ?_, ?_⟩
  · intro a s2 hbody
    simp [PropertyDef.bindCM, hbody]
  · intro a s2 hbody
    simp [SelfVariable.bindTypeCM, hbody]
  · intro a s2 hbody hlast
    simp [DynamicVariable.bindVarCM, hbody, hlast]
  · intro e s2 hbody
    simp [PropertyDef.bindCM, hbody]
  · intro e s2 hbody
    simp [SelfVariable.bindTypeCM, hbody]
  · intro e s2 hbody
    simp [DynamicVariable.bindVarCM, hbody]

/-- C2 witness: the amended theorem applied to a concrete state with a
normally returning block and with a raising block. -/
theorem bind_context_managers_exit_paths_witness :
    PropertyDef.bindCM (α := Nat) 3 (fun s => (.ok 0, s))
        ⟨[], none, none, []⟩ =
      (.ok 0, ⟨[], none, none, []⟩) ∧
    SelfVariable.bindTypeCM (α := Nat) .boolType (fun s => (.ok 0, s))
        ⟨[], none, none, []⟩ =
      (.ok 0, ⟨[], none, none, []⟩) ∧
    DynamicVariable.bindVarCM (α := Nat) 5 (some "v") (fun s => (.ok 0, s))
        ⟨[], none, none, []⟩ =
      (.ok 0, ⟨[], none, none, []⟩) ∧
    SelfVariable.bindTypeCM (α := Nat) .boolType
        (fun s => (.error "diag", s)) ⟨[], none, none, []⟩ =
      (.error "diag", ⟨[], some .boolType, none, []⟩) := by
  have hok := bind_context_managers_exit_paths (α := Nat) 3 .boolType 5
    (some "v") (fun s => (.ok 0, s)) ⟨[], none, none, []⟩
  have herr := bind_context_managers_exit_paths (α := Nat) 3 .boolType 5
    (some "v") (fun s => (.error "diag", s)) ⟨[], none, none, []⟩
  refine ⟨?_, ?_, ?_, ?_⟩
  · have h := hok.1 0 ⟨[some 3], none, none, []⟩ rfl
    simpa using h
  · have h := hok.2.1 0 ⟨[], some .boolType, none, []⟩ rfl
    simpa using h
  · have h := hok.2.2.1 0 ⟨[], none, some "v", [5]⟩ rfl rfl
    simpa using h
  · exact herr.2.2.2.2.1 "diag" ⟨[], some .boolType, none, []⟩ rfl

/-- The subtype relation is reflexive: every type matches itself. -/
theorem tyMatches_refl (t : CompiledType) : t.tyMatches t = true := by
  cases t <;> simp [CompiledType.tyMatches]

/-- C1: let `e` be an abstraction node whose own resolution yields `ret`
and let `T` be a concrete expected type.  If `construct(e, T,
downcast=dc)` succeeds, the resulting IR node's type matches `T` under the
subtype relation; when `ret`'s type is already exactly `T`, or when
`dc = False`, the node's own construction result is returned unchanged (no
conversion node); when `dc = True` and `ret`'s type is a strict subtype of
`T` (it matches but differs), exactly one `Cast` wrapper is inserted around
`ret`.  When `ret`'s type does not match `T`, construction fails with the
descriptive diagnostic naming the expected and the obtained type. -/
theorem construct_expected_type_downcast_spec (e : AbstractExpr)
    (T : CompiledType) (dc : Bool) (ret : Resolved)
    (hret : e.construct = .ok ret) :
    (∀ r, construct (.absExpr e) (some (.ofType T)) none dc = .ok r →
      r.type.tyMatches T = true ∧
      ((ret.type = T ∨ dc = false) → r = ret) ∧
      ((ret.type ≠ T ∧ dc = true) → r = .castExpr ret T)) ∧
    (ret.type.tyMatches T = false →
      construct (.absExpr e) (some (.ofType T)) none dc =
        .error (formatMsg "Expected type {expected}, got {expr_type}"
          T.camelName ret.type.camelName)) := by
  have h1 : construct (.absExpr e) (some (.ofType T)) none dc =
      (do
        let r ← e.construct
        if r.type.tyMatches T then
          if dc = true ∧ T ≠ r.type then .ok (.castExpr r T) else .ok r
        else
          .error (formatMsg "Expected type {expected}, got {expr_type}"
            T.camelName r.type.camelName)) := rfl
  have h2 : construct (.absExpr e) (some (.ofType T)) none dc =
      (if ret.type.tyMatches T then
        if dc = true ∧ T ≠ ret.type then .ok (.castExpr ret T) else .ok ret
       else
        .error (formatMsg "Expected type {expected}, got {expr_type}"
          T.camelName ret.type.camelName)) := by
    rw [h1, hret]
    rfl
  constructor
  · intro r hr
    rw [h2] at hr
    by_cases hm : ret.type.tyMatches T = true
    · rw [if_pos hm] at hr
      by_cases hdc : dc = true ∧ T ≠ ret.type
      · rw [if_pos hdc] at hr
        have hcast : Resolved.castExpr ret T = r := by
          injection hr
        refine ⟨?_, ?_, ?_⟩
        · rw [← hcast]
          simp [Resolved.type, tyMatches_refl]
        · intro hcase
          rcases hcase with hcase | hcase
          · exact absurd hcase.symm hdc.2
          · rw [hcase] at hdc
            simp at hdc
        · intro _
          exact hcast.symm
      · rw [if_neg hdc] at hr
        have hsame : ret = r := by
          injection hr
        refine ⟨?_, ?_, ?_⟩
        · rw [← hsame]
          exact hm
        · intro _
          exact hsame.symm
        · intro hcase
          exact absurd ⟨hcase.2, fun h => hcase.1 h.symm⟩ hdc
    · rw [if_neg hm] at hr
      exact absurd hr (by simp)
  · intro hm
    rw [h2, if_neg (by simp [hm])]

/-- C1 witness: a concrete strict-subtype construction inserts exactly the
one `Cast` wrapper, whose type matches the expected type, and a concrete
already-matching construction with `downcast=False` returns the node's own
result unchanged. -/
theorem construct_expected_type_downcast_spec_witness :
    (Resolved.castExpr
        (.otherExpr "e" (.derivedNodeType "C" (.rootNodeType "R")))
        (.rootNodeType "R")).type.tyMatches (.rootNodeType "R") = true ∧
    Resolved.otherExpr "f" (.rootNodeType "R") =
      .otherExpr "f" (.rootNodeType "R") := by
  have hstrict := construct_expected_type_downcast_spec
    (.ofConstruct (.ok (.otherExpr "e"
      (.derivedNodeType "C" (.rootNodeType "R")))))
    (.rootNodeType "R") true
    (.otherExpr "e" (.derivedNodeType "C" (.rootNodeType "R"))) rfl
  have hexact := construct_expected_type_downcast_spec
    (.ofConstruct (.ok (.otherExpr "f" (.rootNodeType "R"))))
    (.rootNodeType "R") false
    (.otherExpr "f" (.rootNodeType "R")) rfl
  have hs := hstrict.1
    (.castExpr (.otherExpr "e" (.derivedNodeType "C" (.rootNodeType "R")))
      (.rootNodeType "R")) rfl
  have he := hexact.1 (.otherExpr "f" (.rootNodeType "R")) rfl
  exact ⟨hs.1, he.2.1 (Or.inr rfl)⟩

/-- When the collision loop answers, its answer is the first candidate from
its starting index that is absent from the table. -/
theorem pickName_spec (tbl : List String) (orig : String) :
    ∀ fuel i nm, pickName tbl orig fuel i = some nm →
      ∃ k, i ≤ k ∧ k < i + fuel ∧ nm = candName orig k ∧
        candName orig k ∉ tbl ∧
        ∀ j, i ≤ j → j < k → candName orig j ∈ tbl := by
  intro fuel
  induction fuel with
  | zero =>
    intro i nm h
    simp [pickName] at h
  | succ fuel ih =>
    intro i nm h
    simp only [pickName] at h
    by_cases hin : candName orig i ∈ tbl
    · rw [if_pos hin] at h
      obtain ⟨k, hk1, hk2, hk3, hk4, hk5⟩ := ih (i + 1) nm h
      refine ⟨k, by omega, by omega, hk3, hk4, ?_⟩
      intro j hj1 hj2
      rcases Nat.eq_or_lt_of_le hj1 with rfl | hlt
      · exact hin
      · exact hk5 j hlt hj2
    · rw [if_neg hin] at h
      injection h with h
      exact ⟨i, Nat.le_refl i, by omega, h.symm, hin,
        fun j hj1 hj2 => absurd (Nat.lt_of_le_of_lt hj1 hj2)
          (Nat.lt_irrefl i)⟩

/-- The collision loop answers as soon as some candidate in its window is
absent from the table. -/
theorem pickName_isSome (tbl : List String) (orig : String) :
    ∀ fuel i, (∃ k, i ≤ k ∧ k < i + fuel ∧ candName orig k ∉ tbl) →
      (pickName tbl orig fuel i).isSome = true := by
  intro fuel
  induction fuel with
  | zero =>
    intro i h
    obtain ⟨k, h1, h2, _⟩ := h
    omega
  | succ fuel ih =>
    intro i h
    obtain ⟨k, hk1, hk2, hk3⟩ := h
    simp only [pickName]
    by_cases hin : candName orig i ∈ tbl
    · rw [if_pos hin]
      apply ih
      have hne : k ≠ i := by
        rintro rfl
        exact hk3 hin
      exact ⟨k, by omega, by omega, hk3⟩
    · rw [if_neg hin]
      rfl

/-- Pigeonhole: among the first `tbl.length + 1` pairwise-distinct
candidate names, at least one is absent from `tbl`. -/
theorem candName_free_exists (tbl : List String) (orig : String) :
    ∃ k, k ≤ tbl.length ∧ candName orig k ∉ tbl := by
  by_contra hcon
  push_neg at hcon
  have hinj : Function.Injective
      (fun k : Fin (tbl.length + 1) => candName orig k.val) := by
    intro a b hab
    exact Fin.ext (candName_inj hab)
  have hsub : Finset.image
      (fun k : Fin (tbl.length + 1) => candName orig k.val) Finset.univ ⊆
      tbl.toFinset := by
    intro x hx
    simp only [Finset.mem_image, Finset.mem_univ, true_and] at hx
    obtain ⟨k, hk⟩ := hx
    rw [List.mem_toFinset, ← hk]
    exact hcon k.val (Nat.lt_succ_iff.mp k.isLt)
  have hcard := Finset.card_le_card hsub
  rw [Finset.card_image_of_injective _ hinj, Finset.card_univ,
    Fintype.card_fin] at hcard
  have hlen := tbl.toFinset_card_le
  omega

/-- C8: local-variable names are globally unique within one property.
`create_scopeless` (and `create`, which delegates to it) always succeeds;
when the requested name does not collide with any variable already in the
property's table it is kept, and when it collides — with any variable of
the whole table, whatever scope it belongs to — the new variable gets the
requested name suffixed with the first unused positive integer; the
resulting table's names stay pairwise distinct. -/
theorem localVars_names_globally_unique (s : LocalVarsState) (name : String)
    (ty : Option CompiledType)
    (hnodup : (s.localVars.map (·.1)).Nodup) :
    ∃ v s', LocalVars.createScopeless s name ty = some (v, s') ∧
      s'.localVars = s.localVars ++ [(v.lvName, v)] ∧
      v.lvName ∉ s.localVars.map (·.1) ∧
      (name ∉ s.localVars.map (·.1) → v.lvName = name) ∧
      (name ∈ s.localVars.map (·.1) →
        ∃ i, 1 ≤ i ∧ v.lvName = sufName name i ∧
          sufName name i ∉ s.localVars.map (·.1) ∧
          (∀ j, 1 ≤ j → j < i →
            sufName name j ∈ s.localVars.map (·.1))) ∧
      (s'.localVars.map (·.1)).Nodup ∧
      (∃ v2 s2, LocalVars.create s name ty = some (v2, s2) ∧
        v2.lvName = v.lvName ∧ s2.localVars = s'.localVars) := by
  obtain ⟨k0, hk01, hk02⟩ := candName_free_exists (s.localVars.map (·.1)) name
  have hsome : (pickName (s.localVars.map (·.1)) name
      (s.localVars.length + 1) 0).isSome = true := by
    apply pickName_isSome
    refine ⟨k0, Nat.zero_le k0, ?_, hk02⟩
    have hlen : (s.localVars.map (·.1)).length = s.localVars.length :=
      List.length_map _ _
    omega
  obtain ⟨nm, hnm⟩ := Option.isSome_iff_exists.mp hsome
  obtain ⟨k, hk0, _, hk2, hk3, hk4⟩ :=
    pickName_spec (s.localVars.map (·.1)) name _ 0 nm hnm
  have hcs : LocalVars.createScopeless s name ty =
      some (⟨nm, ty⟩,
        { s with localVars := s.localVars ++ [(nm, ⟨nm, ty⟩)] }) := by
    unfold LocalVars.createScopeless
    rw [hnm]
  have hnmfresh : nm ∉ s.localVars.map (·.1) := by
    rw [hk2]
    exact hk3
  refine ⟨⟨nm, ty⟩, _, hcs, rfl, hnmfresh, ?_, ?_, ?_, ?_⟩
  · intro hfree
    rcases Nat.eq_zero_or_pos k with rfl | hkpos
    · rw [hk2]
      rfl
    · exact absurd (hk4 0 (Nat.le_refl 0) hkpos) (by simpa [candName] using hfree)
  · intro hcoll
    have hkpos : 1 ≤ k := by
      rcases Nat.eq_zero_or_pos k with rfl | hkpos
      · exact absurd (by simpa [candName] using hcoll) hk3
      · exact hkpos
    refine ⟨k, hkpos, ?_, ?_, ?_⟩
    · rw [hk2]
      unfold candName
      rw [if_neg (by omega)]
    · have := hk3
      unfold candName at this
      rw [if_neg (by omega)] at this
      exact this
    · intro j hj1 hj2
      have := hk4 j (Nat.zero_le j) hj2
      unfold candName at this
      rw [if_neg (by omega)] at this
      exact this
  · simp only [List.map_append, List.map_cons, List.map_nil]
    rw [List.nodup_append]
    refine ⟨hnodup, List.nodup_singleton nm, ?_⟩
    intro a ha hb
    rw [List.mem_singleton] at hb
    subst hb
    exact hnmfresh ha
  · have hcr : LocalVars.create s name ty =
        some (⟨nm, ty⟩, { localVars := s.localVars ++ [(nm, ⟨nm, ty⟩)],
                          currentScopeVars := s.currentScopeVars ++ [nm] }) := by
      unfold LocalVars.create
      rw [hcs]
      simp
    exact ⟨⟨nm, ty⟩, _, hcr, rfl, rfl⟩

/-- C8 witness: the uniqueness theorem applied to a concrete
single-variable table with a colliding request. -/
theorem localVars_names_globally_unique_witness :
    ∃ v s', LocalVars.createScopeless ⟨[("X", ⟨"X", none⟩)], []⟩ "X" none =
        some (v, s') ∧
      s'.localVars = [("X", (⟨"X", none⟩ : LocalVar))] ++ [(v.lvName, v)] ∧
      v.lvName ∉ [("X", (⟨"X", none⟩ : LocalVar))].map (·.1) ∧
      ("X" ∉ [("X", (⟨"X", none⟩ : LocalVar))].map (·.1) → v.lvName = "X") ∧
      ("X" ∈ [("X", (⟨"X", none⟩ : LocalVar))].map (·.1) →
        ∃ i, 1 ≤ i ∧ v.lvName = sufName "X" i ∧
          sufName "X" i ∉ [("X", (⟨"X", none⟩ : LocalVar))].map (·.1) ∧
          (∀ j, 1 ≤ j → j < i →
            sufName "X" j ∈ [("X", (⟨"X", none⟩ : LocalVar))].map (·.1))) ∧
      (s'.localVars.map (·.1)).Nodup ∧
      (∃ v2 s2, LocalVars.create ⟨[("X", ⟨"X", none⟩)], []⟩ "X" none =
          some (v2, s2) ∧
        v2.lvName = v.lvName ∧ s2.localVars = s'.localVars) :=
  localVars_names_globally_unique ⟨[("X", ⟨"X", none⟩)], []⟩ "X" none
    (by decide)

/-- C10: an `AbstractVariable` created with the name `_` is renamed to
`Unused_<i>` with `i` drawn from the shared monotonically increasing
counter, so two such variables never receive the same name; every variable
whose source name is `_` satisfies the `ignored` predicate, and the
unused-binding analysis therefore never selects it for the unused-bindings
warning even when it is never read. -/
theorem underscore_vars_renamed_and_ignored :
    (∀ nm src c, strLower nm = "_" →
      AbstractVariable.initVar (some nm) src c =
        ({ initName := some (unusedName c.nextVal), sourceName := src,
           ignoredFlag := false }, ⟨c.nextVal + 1⟩)) ∧
    (∀ i j : Nat, i ≠ j → unusedName i ≠ unusedName j) ∧
    (∀ src1 src2 c,
      (AbstractVariable.initVar (some "_") src1 c).1.initName ≠
        (AbstractVariable.initVar (some "_") src2
          (AbstractVariable.initVar (some "_") src1 c).2).1.initName) ∧
    (∀ v : AVInitResult, v.sourceName = some "_" →
      AbstractVariable.ignoredPred v = true) ∧
    (∀ allVars (bu : VarExprUse) av, bu.veAbstractVar = some av →
      av.sourceName = some "_" →
      bu ∉ PropertyDef.unusedVarsFilter allVars) := by
  have hred : ∀ src (c : UnusedCounter),
      AbstractVariable.initVar (some "_") src c =
        ({ initName := some (unusedName c.nextVal), sourceName := src,
           ignoredFlag := false }, ⟨c.nextVal + 1⟩) := by
    intro src c
    have hu : strLower "_" = "_" := by decide
    simp [AbstractVariable.initVar, hu]
  refine ⟨?_, ?_, ?_, ?_, ?_⟩
  · intro nm src c h
    simp [AbstractVariable.initVar, h]
  · intro i j hne h
    exact hne (unusedName_inj h)
  · intro src1 src2 c
    rw [hred, hred]
    simp only [Option.some.injEq, ne_eq]
    intro h
    have := unusedName_inj h
    omega
  · intro v h
    simp [AbstractVariable.ignoredPred, h]
  · intro allVars bu av hav hsrc hmem
    rw [PropertyDef.unusedVarsFilter, List.mem_filter] at hmem
    have hig : VariableExpr.ignoredOf bu = true := by
      simp [VariableExpr.ignoredOf, hav, AbstractVariable.ignoredPred, hsrc]
    rw [hig] at hmem
    simp at hmem

/-- C10 witness: the theorem applied to a concrete `_` variable at the
initial counter state. -/
theorem underscore_vars_renamed_and_ignored_witness :
    AbstractVariable.initVar (some "_") (some "_") initialUnusedCounter =
      ({ initName := some (unusedName 1), sourceName := some "_",
         ignoredFlag := false }, ⟨2⟩) ∧
    AbstractVariable.ignoredPred
      { initName := some (unusedName 1), sourceName := some "_",
        ignoredFlag := false } = true ∧
    unusedName 1 ≠ unusedName 2 ∧
    ({ veIgnoredFlag := false,
       veAbstractVar := some { initName := some (unusedName 1),
                               sourceName := some "_", ignoredFlag := false },
       isUsed := false } : VarExprUse) ∉
      PropertyDef.unusedVarsFilter
        [{ veIgnoredFlag := false,
           veAbstractVar := some { initName := some (unusedName 1),
                                   sourceName := some "_",
                                   ignoredFlag := false },
           isUsed := false }] := by
  refine ⟨?_, ?_, ?_, ?_⟩
  · exact underscore_vars_renamed_and_ignored.1 "_" (some "_")
      initialUnusedCounter (by decide)
  · exact underscore_vars_renamed_and_ignored.2.2.2.1 _ rfl
  · exact underscore_vars_renamed_and_ignored.2.1 1 2 (by omega)
  · exact underscore_vars_renamed_and_ignored.2.2.2.2 _ _ _ rfl rfl

end Langkit
